import Mathlib

/-!
Shallow embedding of the application controller in
`src/rootfs/api/models/app.py` (class `App`), together with proofs about its
scale / run / restart / delete / list-pods behaviour.

Modelling conventions:
* The persisted `Container` table is modelled per application as an
  association list `DB : List (String × List Nat)` mapping a process type to
  the list of ordinal numbers (`num` column) of its live records, kept in
  creation order.  Creation appends, deletion filters; this matches the
  Django queries used by the source (`filter(type=...)`, `order_by('created')`,
  `aggregate(Max('num'))`, `values('type').annotate(Count('pk'))`).
* Scheduler interaction is recorded as a trace of `SchedCall` events; the
  outcome of scheduler calls is supplied by boolean/function oracles, since
  the scheduler itself is an external collaborator.
* Python exceptions become `Except` / explicit error components.
-/

namespace Workflow

/-- Log levels used by `log_event`. -/
inductive LogLev where
  | info
  | warning
  | error
deriving DecidableEq, Repr

/-- Observable events emitted by the controller: application-scoped log lines
and the batch-destroy performed by `_start_containers` on create failure. -/
inductive Ev where
  | log (lvl : LogLev) (msg : String)
  | destroyBatch
deriving DecidableEq, Repr

/-- Calls made to the scheduler client (`self._scheduler`). -/
inductive SchedCall where
  /-- The call `self._scheduler.create(self.id)` issued by `App.create`. -/
  | createNs
  /-- The call `self._scheduler.destroy(self.id)` issued by `App.delete`. -/
  | destroyNs
  /-- The call `self._scheduler.scale(...)` issued by `_scale_containers` for one type. -/
  | scaleWorkload (t : String) (n : Nat)
  /-- The call `c.run(...)` issued by `App.run` on the fresh record. -/
  | runCmd (cmd : String)
deriving DecidableEq, Repr

/-- Python exception classes relevant to the modelled control flow: the
`RuntimeError` raised by the bulk helpers, versus any other exception. -/
inductive Exc where
  | runtimeError
  | otherExc
deriving DecidableEq, Repr

/-- Model of `Build` as consumed by `App`: `sha` (source-commit ref, `None`/empty means
absent), the Dockerfile flag, and the declared process types of the procfile
(only key membership and emptiness of the procfile are consulted by the
modelled code paths, so it is carried as a list of type names). -/
structure Build where
  sha : Option String
  dockerfile : Bool
  procfile : List String
deriving DecidableEq, Repr

/-- Python truthiness of an optional string: `None` and `""` are falsy. -/
def strFalsy (s : Option String) : Bool :=
  s.getD "" == ""

/-- The persisted container records of one application: for each process type,
the ordinals (`num`) of its records in creation order. -/
abbrev DB := List (String × List Nat)

/-- Ordinals currently recorded for process type `t`
(`container_set.filter(type=t)` in creation order). -/
def getNums (db : DB) (t : String) : List Nat :=
  match db.find? (fun p => p.1 == t) with
  | some p => p.2
  | none => []

/-- Replace (or create) the record list of type `t`. -/
def setNums (db : DB) (t : String) (l : List Nat) : DB :=
  match db with
  | [] => [(t, l)]
  | p :: rest => if p.1 == t then (t, l) :: rest else p :: setNums rest t l

/-- Model of `aggregate(Max('num'))` with the source's `(results.get('num__max') or 0)`
default: maximum of the list, `0` when empty. -/
def maxNum (l : List Nat) : Nat :=
  l.foldr max 0

/-- Well-formedness of the record table: within each type the ordinals are
strictly increasing in creation order (hence distinct).  This holds for every
reachable state because records are always created at `current max + 1`. -/
def DBok (db : DB) : Prop :=
  ∀ p ∈ db, List.Chain' (· < ·) p.2

instance : DecidablePred DBok := fun db =>
  inferInstanceAs (Decidable (∀ p ∈ db, List.Chain' (· < ·) p.2))

/-- Application state: the record table plus the persisted `structure` field. -/
structure AppSt where
  db : DB
  struct : List (String × Nat)
deriving DecidableEq, Repr

/-- Errors raised by `App.scale`: the two `EnvironmentError` validations and a
scheduler failure re-raised from `_scale_containers`. -/
inductive ScaleErr where
  | noBuild
  | unknownType (t : String)
  | schedFail
deriving DecidableEq, Repr

/-- Accumulator of the per-type loop inside `App.scale`: the evolving record
table, the created records (`to_add`), the records marked for removal
(`to_remove`), the changed types (`scale_types`) and the `changed` flag.
`to_add` / `to_remove` are grouped as (type, ordinals) bursts. -/
structure LoopSt where
  db : DB
  toAdd : List (String × List Nat)
  toRemove : List (String × List Nat)
  scaleTypes : List (String × Nat)
  changed : Bool
deriving DecidableEq, Repr

/-- One iteration of the `for container_type in requested_structure` loop of
`App.scale`: diff the requested count against the current records of the type;
`diff = 0` is a no-op, `diff < 0` marks the newest `|diff|` records for
removal (the records stay in the table until the post-loop delete), `diff > 0`
creates `diff` records with ordinals continuing from `max + 1`. -/
def processType (st : LoopSt) (tr : String × Nat) : LoopSt :=
  let t := tr.1
  let r := tr.2
  let nums := getNums st.db t
  if r = nums.length then
    st
  else if r < nums.length then
    { st with
      toRemove := st.toRemove ++ [(t, nums.drop r)]
      scaleTypes := st.scaleTypes ++ [(t, r)]
      changed := true }
  else
    let fresh := (List.range (r - nums.length)).map (fun i => maxNum nums + 1 + i)
    { st with
      db := setNums st.db t (nums ++ fresh)
      toAdd := st.toAdd ++ [(t, fresh)]
      scaleTypes := st.scaleTypes ++ [(t, r)]
      changed := true }

/-- The whole per-type loop of `App.scale`. -/
def scaleLoop (db : DB) (S : List (String × Nat)) : LoopSt :=
  S.foldl processType ⟨db, [], [], [], false⟩

/-- Delete the records of type `t` whose ordinals are in `rem`
(`c.delete()` on the marked records). -/
def removeNums (db : DB) (t : String) (rem : List Nat) : DB :=
  setNums db t ((getNums db t).filter (fun n => !(rem.contains n)))

/-- Delete every record marked for removal by the loop. -/
def applyRemovals (db : DB) (toRemove : List (String × List Nat)) : DB :=
  toRemove.foldl (fun d p => removeNums d p.1 p.2) db

/-- Python `dict.update` on an association list: existing keys are overridden, new
keys appended. -/
def updateAssoc (l : List (String × Nat)) (k : String) (v : Nat) : List (String × Nat) :=
  match l with
  | [] => [(k, v)]
  | p :: rest => if p.1 == k then (k, v) :: rest else p :: updateAssoc rest k v

/-- The `new_structure` computation at the end of `App.scale`: the requested
structure overridden by the actual per-type record counts, excluding the
reserved `run` type (and, as in SQL `GROUP BY`, types with no rows). -/
def newStructure (S : List (String × Nat)) (db : DB) : List (String × Nat) :=
  let counts := (db.filter (fun p => !(p.1 == "run") && !(p.2.isEmpty))).map
    (fun p => (p.1, p.2.length))
  counts.foldl (fun acc c => updateAssoc acc c.1 c.2) S

/-- Model of `App.scale(user, structure)`.  Inputs: the build of the latest release
(`none` when the release has no build), an oracle `schedOk` deciding whether
the scheduler bulk-scale calls succeed, the application state and the
requested structure `S` (a dict, modelled as an association list).  Output:
the trace of scheduler calls, the resulting application state and either the
raised error or the returned `changed` flag.

Control flow from the source: `self.create()` (which always issues
`scheduler.create(self.id)`) runs first; then the no-build and
unknown-process-type validations; then the per-type diff loop; if anything
changed, the bulk path issues one `scheduler.scale` per changed type (a
failure is logged and re-raised, leaving the created records persisted and
the marked records undeleted); finally the new structure is persisted. -/
def scale (build : Option Build) (schedOk : Bool) (st : AppSt)
    (S : List (String × Nat)) :
    List SchedCall × AppSt × Except ScaleErr Bool :=
  match build with
  | none => ([SchedCall.createNs], st, .error .noBuild)
  | some b =>
    match S.find? (fun p => !(p.1 == "cmd") && !(b.procfile.contains p.1)) with
    | some p => ([SchedCall.createNs], st, .error (.unknownType p.1))
    | none =>
      let ls := scaleLoop st.db S
      if ls.changed then
        let tr := SchedCall.createNs ::
          ls.scaleTypes.map (fun p => SchedCall.scaleWorkload p.1 p.2)
        if schedOk then
          let db2 := applyRemovals ls.db ls.toRemove
          (tr, ⟨db2, newStructure S db2⟩, .ok true)
        else
          (tr, ⟨ls.db, st.struct⟩, .error .schedFail)
      else
        ([SchedCall.createNs], ⟨ls.db, newStructure S ls.db⟩, .ok false)

/-- One container in a `_start_containers` batch: its lifecycle state as
observed after the create-phase join and after the start-phase join (the
thread fan-out/join barriers make each phase's states available exactly at
the aggregate checks). -/
structure CInst where
  createState : String
  startState : String
deriving DecidableEq, Repr

/-- Model of `App._start_containers(to_add)`: concurrent create, full join; if any
record is not in state `created`, log an error, destroy the whole batch and
raise `RuntimeError`; otherwise concurrent start, full join; if the set of
states is not exactly `up`, log a warning.  (For a non-empty batch the
source's set comparison `set(states) != set(["up"])` is equivalent to `not
all states are "up"`.) -/
def start_containers (toAdd : List CInst) : List Ev × Except Exc Unit :=
  if toAdd.isEmpty then
    ([], .ok ())
  else if toAdd.any (fun c => !(c.createState == "created")) then
    ([Ev.log .error "aborting, failed to create some containers", Ev.destroyBatch],
      .error .runtimeError)
  else if toAdd.all (fun c => c.startState == "up") then
    ([], .ok ())
  else
    ([Ev.log .warning "warning, some containers failed to start"], .ok ())

/-- All (type, ordinal) records of the table except the reserved `run` type
(`container_set.exclude(type='run')`). -/
def nonRunRecs (db : DB) : List (String × Nat) :=
  (db.filter (fun p => !(p.1 == "run"))).flatMap (fun p => p.2.map (fun n => (p.1, n)))

/-- Delete the given records from the table. -/
def deleteRecs (db : DB) (recs : List (String × Nat)) : DB :=
  db.map (fun p => (p.1, p.2.filter (fun n => !(recs.contains (p.1, n)))))

/-- Model of `App._destroy_containers(to_destroy)` with the per-record destroy
outcomes supplied by `destroyOk`.  Without a bulk-capable scheduler
(`"scale" not in dir(self._scheduler)`): destroy each record concurrently,
delete the rows that reached `destroyed`, and raise `RuntimeError` if any
straggler remains.  With a bulk scheduler: just delete the rows. -/
def destroy_containers (hasScale : Bool) (destroyOk : String → Nat → Bool)
    (db : DB) (toDestroy : List (String × Nat)) : DB × Option Exc :=
  if toDestroy.isEmpty then
    (db, none)
  else if hasScale then
    (deleteRecs db toDestroy, none)
  else
    let db2 := deleteRecs db (toDestroy.filter (fun p => destroyOk p.1 p.2))
    if toDestroy.all (fun p => destroyOk p.1 p.2) then
      (db2, none)
    else
      (db2, some .runtimeError)

/-- Result of `App.delete`. -/
structure DeleteResult where
  trace : List SchedCall
  db : DB
  /-- whether `super().delete()` ran, i.e. the application row was removed. -/
  appDeleted : Bool
  /-- the exception propagated to the caller, if any. -/
  raised : Option Exc
deriving DecidableEq, Repr

/-- Model of `App.delete`: `scheduler.destroy(self.id)` then
`_destroy_containers(non-run records)`, with any `RuntimeError` from that
block swallowed (`except RuntimeError: pass`); then the log cleanup (elided,
its errors are swallowed) and `super().delete()`.  `schedDestroyExc` is the
exception raised by the namespace destroy, if any; a non-`RuntimeError`
exception propagates and prevents the row deletion. -/
def delete (hasScale : Bool) (schedDestroyExc : Option Exc)
    (destroyOk : String → Nat → Bool) (st : AppSt) : DeleteResult :=
  match schedDestroyExc with
  | some .runtimeError => ⟨[SchedCall.destroyNs], st.db, true, none⟩
  | some .otherExc => ⟨[SchedCall.destroyNs], st.db, false, some .otherExc⟩
  | none =>
    let out := destroy_containers hasScale destroyOk st.db (nonRunRecs st.db)
    match out.2 with
    | none => ⟨[SchedCall.destroyNs], out.1, true, none⟩
    | some .runtimeError => ⟨[SchedCall.destroyNs], out.1, true, none⟩
    | some .otherExc => ⟨[SchedCall.destroyNs], out.1, false, some .otherExc⟩

/-- The structure chosen by `App._default_scale` from the release's build. -/
def default_scale (b : Build) : List (String × Nat) :=
  if strFalsy b.sha then
    [("cmd", 1)]
  else if b.dockerfile && b.procfile.isEmpty then
    [("cmd", 1)]
  else if !b.procfile.isEmpty && !b.procfile.contains "web" then
    [("cmd", 1)]
  else
    [("web", 1)]

/-- The default-scale policy as the specification words it, with the priority
order made explicit: (1) no source-commit ref; else (2) Dockerfile present
and no declared process list; else (3) a declared process list exists but
lacks `web`; (4) otherwise `web`. -/
def defaultScaleSpec (b : Build) : List (String × Nat) :=
  if strFalsy b.sha then
    [("cmd", 1)]
  else if b.dockerfile = true ∧ b.procfile = [] then
    [("cmd", 1)]
  else if b.procfile ≠ [] ∧ "web" ∉ b.procfile then
    [("cmd", 1)]
  else
    [("web", 1)]

/-- A raw pod record as returned by the scheduler query: the fields of the
kubernetes object that `list_pods` reads. -/
structure RawPod where
  name : String
  labelType : String
  labelVersion : String
  startTime : Option String
deriving DecidableEq, Repr

/-- The `Pod` projection built by `list_pods`. -/
structure Pod where
  name : String
  state : String
  release : String
  type : String
  started : String
deriving DecidableEq, Repr

/-- Build one `Pod` projection from a raw record: `resolve_state` is the
scheduler's opaque state resolver, `now` the current time used when the raw
record carries no `startTime`. -/
def toPod (resolveState : RawPod → String) (now : String) (p : RawPod) : Pod :=
  ⟨p.name, resolveState p, p.labelVersion, p.labelType, p.startTime.getD now⟩

/-- The descending-start-time order used by `data.sort(key=..., reverse=True)`. -/
def podLater (a b : Pod) : Prop :=
  b.started ≤ a.started

instance : DecidableRel podLater := fun a b =>
  inferInstanceAs (Decidable (b.started ≤ a.started))

instance : IsTotal Pod podLater :=
  ⟨fun a b => (le_total b.started a.started).imp id id⟩

instance : IsTrans Pod podLater :=
  ⟨fun _ _ _ h1 h2 => le_trans h2 h1⟩

/-- The projection/filter/sort pipeline of `list_pods`: drop the reserved
`run` pods, map to the `Pod` projection, sort with latest start time first
(a stable sort, as Python's). -/
def processPods (resolveState : RawPod → String) (now : String)
    (raws : List RawPod) : List Pod :=
  List.insertionSort podLater
    ((raws.filter (fun p => !(p.labelType == "run"))).map (toPod resolveState now))

/-- Scheduler query errors seen by `list_pods`.  Modelled from the spec: the
`scheduler` module (not part of the sources here) raises `KubeHTTPException`
for the "not found" query outcome, and other failures surface as other
exceptions; the spec classifies the swallowed category as "not found"
errors. -/
inductive KubeErr where
  | notFound
  | otherErr
deriving DecidableEq, Repr

/-- Model of `App.list_pods`: on a successful query, the processed list is returned;
a `KubeHTTPException` ("not found") is swallowed by `except ...: pass`, which
makes the function fall off its end and return Python `None` (modelled as
`Option.none`); any other exception is logged as an application error and
re-raised. -/
def list_pods (resolveState : RawPod → String) (now : String)
    (q : Except KubeErr (List RawPod)) :
    List Ev × Except KubeErr (Option (List Pod)) :=
  match q with
  | .ok raws => ([], .ok (some (processPods resolveState now raws)))
  | .error .notFound => ([], .ok none)
  | .error .otherErr => ([Ev.log .error "(list pods)"], .error .otherErr)

/-- The single-quote character, written by code point to keep source literals
readable. -/
def squote : Char := Char.ofNat 39

/-- The backslash character. -/
def bslash : Char := Char.ofNat 92

/-- The `command.replace("'", "'\\''")` shell escaping of `App.run`: each
single quote becomes quote-backslash-quote-quote. -/
def shellEscape (s : String) : String :=
  ⟨s.toList.flatMap (fun c =>
    if c == squote then [squote, bslash, squote, squote] else [c])⟩

/-- Errors raised by `App.run`: the no-build `EnvironmentError`, or whatever
the instance's run primitive raises. -/
inductive RunErr where
  | noBuild
  | schedFail
deriving DecidableEq, Repr

/-- Model of `App.run(user, command)`: reject when the latest release has no build;
otherwise pick ordinal `max(existing run ordinals or [0]) + 1`, create and
persist the `run`-type record, shell-escape the command and invoke the
record's run primitive (whose success is supplied by `runOk`).  The record
stays persisted whether or not the primitive raises. -/
def run (build : Option Build) (runOk : Bool) (st : AppSt) (command : String) :
    List SchedCall × AppSt × Except RunErr Unit :=
  match build with
  | none => ([], st, .error .noBuild)
  | some _ =>
    let nums := getNums st.db "run"
    let cNum := maxNum nums + 1
    let st2 : AppSt := ⟨setNums st.db "run" (nums ++ [cNum]), st.struct⟩
    let escaped := shellEscape command
    if runOk then
      ([SchedCall.runCmd escaped], st2, .ok ())
    else
      ([SchedCall.runCmd escaped], st2, .error .schedFail)

/-- Count of listed pods in state `up` (the convergence measure of
`App.restart`). -/
def upCount (ps : List Pod) : Nat :=
  (ps.filter (fun p => p.state == "up")).length

/-- The polling loop of `App.restart`: `observe k` is the matching pod list
returned by the `k`-th `list_pods` call inside the loop.  Starting from
`elapsed = 0`, each iteration first raises the timeout `RuntimeError` when
`elapsed` has reached 300, then compares the observed `up` count with the
desired count, and otherwise sleeps 5 time units and retries. -/
def pollPods (desired : Nat) (observe : Nat → List Pod)
    (elapsed k : Nat) : Except Unit Nat :=
  if 300 ≤ elapsed then
    .error ()
  else if upCount (observe k) = desired then
    .ok k
  else
    pollPods desired observe (elapsed + 5) (k + 1)
termination_by 300 - elapsed
decreasing_by omega

/-- The wait-and-return tail of `App.restart`: run the polling loop; a raised
timeout is caught by the surrounding `except Exception` and logged as a
warning; either way one final `list_pods` call produces the returned list
(observation index `k + 1` after convergence at iteration `k`, index 60 after
the 60 in-loop observations of the timeout case). -/
def restart (desired : Nat) (observe : Nat → List Pod) : List Ev × List Pod :=
  match pollPods desired observe 0 0 with
  | .ok k => ([], observe (k + 1))
  | .error _ =>
    ([Ev.log .warning "warning, some pods failed to start"], observe 60)

/-! ### Generic helpers -/

instance {ε α : Type} [DecidableEq ε] [DecidableEq α] : DecidableEq (Except ε α) :=
  fun a b =>
    match a, b with
    | .ok x, .ok y => if h : x = y then .isTrue (by simp [h]) else .isFalse (by simp [h])
    | .ok _, .error _ => .isFalse (by simp)
    | .error _, .ok _ => .isFalse (by simp)
    | .error x, .error y =>
      if h : x = y then .isTrue (by simp [h]) else .isFalse (by simp [h])

theorem getNums_setNums_self (db : DB) (t : String) (l : List Nat) :
    getNums (setNums db t l) t = l := by
  induction db with
  | nil => simp [setNums, getNums, List.find?]
  | cons p rest ih =>
    by_cases h : p.1 = t
    · simp [setNums, getNums, List.find?, h]
    · rw [setNums, if_neg (by simpa using h)]
      rw [getNums, List.find?]
      rw [show (p.1 == t) = false from by simpa using h]
      exact ih

theorem getNums_setNums_ne (db : DB) (t u : String) (l : List Nat) (h : u ≠ t) :
    getNums (setNums db t l) u = getNums db u := by
  have h2 : (t == u) = false := by simpa using (Ne.symm h)
  induction db with
  | nil => simp [setNums, getNums, List.find?, h2]
  | cons p rest ih =>
    by_cases hp : p.1 = t
    · rw [setNums, if_pos (by simpa using hp)]
      rw [getNums, List.find?, h2, getNums, List.find?]
      rw [show (p.1 == u) = false from by simp [hp, Ne.symm h]]
    · rw [setNums, if_neg (by simpa using hp)]
      by_cases hu : p.1 = u
      · rw [getNums, List.find?, getNums, List.find?]
        rw [show (p.1 == u) = true from by simpa using hu]
      · rw [getNums, List.find?, getNums, List.find?]
        rw [show (p.1 == u) = false from by simpa using hu]
        exact ih

theorem le_maxNum (l : List Nat) (m : Nat) (h : m ∈ l) : m ≤ maxNum l := by
  induction l with
  | nil => cases h
  | cons a l ih =>
    rcases List.mem_cons.1 h with rfl | h2
    · exact le_max_left _ _
    · exact le_trans (ih h2) (le_max_right _ _)

/-! ### C7: default scale priority -/

/-- C7: `_default_scale` chooses the initial structure by exactly the
spec's priority order over the release's build: no source-commit ref →
cmd:1; else Dockerfile present and no declared process list → cmd:1; else a
declared process list exists but lacks "web" → cmd:1; otherwise web:1. -/
theorem default_scale_follows_spec_priority (b : Build) :
    default_scale b = defaultScaleSpec b := by
  rcases b with ⟨sha, df, pf⟩
  simp only [default_scale, defaultScaleSpec]
  by_cases h1 : strFalsy sha
  · simp [h1]
  · rw [if_neg h1, if_neg h1]
    rcases pf with _ | ⟨a, l⟩
    · cases df <;> simp
    · by_cases hw : "web" ∈ a :: l <;> simp [hw]

/-! ### C6: list_pods error handling -/

/-- C6 counterexample: a "not found" scheduler error is swallowed, but the
call then returns Python `None` (modelled `none`), which is a different
value from the empty result `some []` that an empty query produces — so the
"equivalent to an empty result" part of the claim is false. -/
theorem list_pods_notFound_counterexample :
    (list_pods (fun _ => "up") "t" (.error .notFound)).2 = .ok none ∧
    (list_pods (fun _ => "up") "t" (.ok [])).2 = .ok (some []) ∧
    (Except.ok (none : Option (List Pod)) : Except KubeErr (Option (List Pod))) ≠
      .ok (some []) := by
  refine ⟨rfl, rfl, ?_⟩
  simp

/-- C6 (amended): a "not found" scheduler error is swallowed — no exception
reaches the caller and nothing is logged — but the call returns `None`
rather than an empty list; any other scheduler error is logged as an
application error and re-raised unchanged. -/
theorem list_pods_error_handling (rs : RawPod → String) (now : String) :
    list_pods rs now (.error .notFound) = ([], .ok none) ∧
    list_pods rs now (.error .otherErr) =
      ([Ev.log .error "(list pods)"], .error .otherErr) :=
  ⟨rfl, rfl⟩

/-! ### C10: run is not atomic on scheduler failure -/

/-- C10: once `run`'s validation passes, the new "run"-type record is
persisted with ordinal `max + 1` before the instance's run primitive is
invoked, so when the primitive raises, the error propagates while the record
remains persisted (no cleanup on error). -/
theorem run_record_persists_on_failure (b : Build) (st : AppSt) (cmd : String) :
    (run (some b) false st cmd).2.2 = .error .schedFail ∧
    getNums (run (some b) false st cmd).2.1.db "run" =
      getNums st.db "run" ++ [maxNum (getNums st.db "run") + 1] ∧
    (run (some b) false st cmd).1 = [SchedCall.runCmd (shellEscape cmd)] := by
  refine ⟨rfl, ?_, rfl⟩
  simp only [run]
  exact getNums_setNums_self _ _ _

/-! ### C3: bulk create+start helper -/

/-- C3: for a non-empty batch, `_start_containers` is all-or-nothing on the
create phase — if any record is not in state "created" after the full join
it logs an error, destroys the whole batch and raises `RuntimeError` — while
the start phase is best-effort: when every create succeeded the helper never
fails, and if not all records reached "up" it only logs a warning. -/
theorem start_containers_all_or_nothing (toAdd : List CInst) (hne : toAdd ≠ []) :
    ((∃ c ∈ toAdd, c.createState ≠ "created") →
      start_containers toAdd =
        ([Ev.log .error "aborting, failed to create some containers", Ev.destroyBatch],
          .error .runtimeError)) ∧
    ((∀ c ∈ toAdd, c.createState = "created") →
      (start_containers toAdd).2 = .ok () ∧
      ((∃ c ∈ toAdd, c.startState ≠ "up") →
        (start_containers toAdd).1 =
          [Ev.log .warning "warning, some containers failed to start"]) ∧
      ((∀ c ∈ toAdd, c.startState = "up") → start_containers toAdd = ([], .ok ()))) := by
  have hempty : toAdd.isEmpty = false := by
    simpa [List.isEmpty_iff] using hne
  constructor
  · intro hbad
    rw [start_containers, if_neg (by simp [hempty])]
    rw [if_pos (by simpa [List.any_eq_true] using hbad)]
  · intro hgood
    have hnotany : toAdd.any (fun c => !(c.createState == "created")) = false := by
      simp only [List.any_eq_false]
      intro c hc
      simp [hgood c hc]
    refine ⟨?_, ?_, ?_⟩
    · rw [start_containers, if_neg (by simp [hempty]), if_neg (by simp [hnotany])]
      by_cases hup : toAdd.all (fun c => c.startState == "up")
      · rw [if_pos hup]
      · rw [if_neg hup]
    · intro hdown
      rw [start_containers, if_neg (by simp [hempty]), if_neg (by simp [hnotany])]
      rw [if_neg (by simpa [List.all_eq_true] using hdown)]
    · intro hup
      rw [start_containers, if_neg (by simp [hempty]), if_neg (by simp [hnotany])]
      rw [if_pos (by simpa [List.all_eq_true] using hup)]

/-- C3 witness: a concrete singleton batch whose create and start both
succeed runs the helper to a silent success. -/
theorem start_containers_all_or_nothing_witness :
    (([⟨"created", "up"⟩] : List CInst) ≠ []) ∧
    start_containers [⟨"created", "up"⟩] = ([], .ok ()) :=
  ⟨by decide,
    ((start_containers_all_or_nothing [⟨"created", "up"⟩] (by decide)).2
      (by decide)).2.2 (by decide)⟩

/-! ### C9: application deletion vs teardown -/

/-- C9 counterexample: with a per-instance scheduler, a teardown in which the
single non-"run" container fails to destroy raises `RuntimeError` inside
`App.delete`, but that exception is swallowed (`except RuntimeError: pass`)
and the application row is deleted anyway, with the container record still
present — refuting "if the teardown fails, the application record is not
deleted". -/
theorem delete_despite_failed_teardown :
    (delete false none (fun _ _ => false) ⟨[("web", [1])], []⟩).appDeleted = true ∧
    (delete false none (fun _ _ => false) ⟨[("web", [1])], []⟩).db = [("web", [1])] ∧
    (delete false none (fun _ _ => false) ⟨[("web", [1])], []⟩).raised = none := by
  decide

/-- C9 (amended): `App.delete` attempts the scheduler-namespace destroy and
the teardown of all non-"run" records before deleting the application row,
but a `RuntimeError` raised by that teardown is swallowed and the row is
deleted regardless; only a non-`RuntimeError` exception (from the namespace
destroy) propagates and prevents the row deletion. -/
theorem destroy_containers_raises_only_runtime (hasScale : Bool)
    (destroyOk : String → Nat → Bool) (db : DB) (td : List (String × Nat)) :
    (destroy_containers hasScale destroyOk db td).2 ≠ some Exc.otherExc := by
  rw [destroy_containers]
  by_cases h1 : td.isEmpty
  · rw [if_pos h1]
    simp
  · rw [if_neg h1]
    by_cases h2 : hasScale
    · rw [if_pos h2]
      simp
    · rw [if_neg h2]
      by_cases h3 : td.all (fun p => destroyOk p.1 p.2)
      · rw [if_pos h3]
        simp
      · rw [if_neg h3]
        simp

theorem delete_teardown_policy (hasScale : Bool) (exc : Option Exc)
    (destroyOk : String → Nat → Bool) (st : AppSt) :
    (delete hasScale exc destroyOk st).trace = [SchedCall.destroyNs] ∧
    (delete hasScale exc destroyOk st).appDeleted =
      decide (exc ≠ some Exc.otherExc) ∧
    (delete hasScale exc destroyOk st).raised =
      (if exc = some Exc.otherExc then some Exc.otherExc else none) := by
  rcases exc with _ | e
  · simp only [delete]
    rcases hout : (destroy_containers hasScale destroyOk st.db (nonRunRecs st.db)).2
      with _ | e2
    · simp [hout]
    · cases e2 with
      | runtimeError => simp [hout]
      | otherExc =>
        exact absurd hout
          (destroy_containers_raises_only_runtime hasScale destroyOk st.db (nonRunRecs st.db))
  · cases e <;> simp [delete]

/-! ### C5: validation order vs scheduler calls -/

/-- C5 counterexample: `App.scale` runs `self.create()` — which issues the
scheduler namespace-create call — before the no-build validation, so a scale
on a build-less release is rejected only after a scheduler call has been
made, refuting "before any call to the scheduler client is made". -/
theorem scale_validation_after_scheduler_call :
    scale none true ⟨[], []⟩ [("web", 1)] =
      ([SchedCall.createNs], ⟨[], []⟩, .error .noBuild) ∧
    ([SchedCall.createNs] : List SchedCall) ≠ [] := by
  exact ⟨rfl, by simp⟩

/-- C5 (amended): every validation failure of `scale` (missing build or a
requested type absent from the build's process types other than "cmd")
rejects the call before any workload-mutating scheduler call — the trace
holds only the namespace-ensure call issued by `create()` — and leaves the
application state untouched; `run` with a build-less release is rejected
before any scheduler call and creates no record. -/
theorem validation_rejects_before_workload_calls (b? : Option Build) (so : Bool)
    (st : AppSt) (S : List (String × Nat)) (e : ScaleErr)
    (he : (scale b? so st S).2.2 = .error e) (hv : e ≠ .schedFail) :
    (scale b? so st S).1 = [SchedCall.createNs] ∧
    (scale b? so st S).2.1 = st ∧
    (∀ ro cmd, run none ro st cmd = ([], st, .error .noBuild)) := by
  refine ⟨?_, ?_, fun ro cmd => rfl⟩ <;>
  · rcases b? with _ | b
    · rfl
    · simp only [scale] at he ⊢
      rcases hf : S.find? (fun p => !(p.1 == "cmd") && !(b.procfile.contains p.1))
        with _ | p
      · rw [hf] at he
        simp only at he
        by_cases hch : (scaleLoop st.db S).changed
        · rw [if_pos hch] at he
          by_cases hso : so
          · rw [if_pos hso] at he
            cases he
          · rw [if_neg hso] at he
            cases he
            exact absurd rfl hv
        · rw [if_neg hch] at he
          cases he
      · rw [hf]


/-- C5 witness: scaling an application whose latest release has no build at a
concrete state is rejected with the no-build error while only the
namespace-ensure call is on the trace. -/
theorem validation_rejects_before_workload_calls_witness :
    ((scale none true ⟨[], []⟩ [("web", 1)]).2.2 = .error ScaleErr.noBuild) ∧
    (ScaleErr.noBuild ≠ ScaleErr.schedFail) ∧
    (scale none true ⟨[], []⟩ [("web", 1)]).1 = [SchedCall.createNs] :=
  ⟨rfl, by decide,
    (validation_rejects_before_workload_calls none true ⟨[], []⟩ [("web", 1)]
      .noBuild rfl (by decide)).1⟩

/-! ### C1: ordinal assignment -/

/-- C1 counterexample: scaling "web" up to 1 (ordinal 1 assigned), then to
zero (all "web" records deleted), then back to 1 assigns ordinal 1 again —
`aggregate(Max('num'))` only sees currently existing records — so ordinals
are reused across scale-to-zero and the new record's ordinal does not exceed
every ordinal previously assigned for the pair. All three calls succeed. -/
theorem ordinal_reuse_after_scale_to_zero :
    let b : Build := ⟨some "abc", false, ["web"]⟩
    let r1 := scale (some b) true ⟨[], []⟩ [("web", 1)]
    let r2 := scale (some b) true r1.2.1 [("web", 0)]
    let r3 := scale (some b) true r2.2.1 [("web", 1)]
    r1.2.2 = .ok true ∧ r2.2.2 = .ok true ∧ r3.2.2 = .ok true ∧
    getNums r1.2.1.db "web" = [1] ∧ getNums r2.2.1.db "web" = [] ∧
      getNums r3.2.1.db "web" = [1] := by
  decide

theorem getNums_processType_mono (st : LoopSt) (tr : String × Nat) (t : String)
    (m : Nat) (h : m ∈ getNums st.db t) :
    m ∈ getNums (processType st tr).db t := by
  simp only [processType]
  by_cases h1 : tr.2 = (getNums st.db tr.1).length
  · rw [if_pos h1]
    exact h
  · rw [if_neg h1]
    by_cases h2 : tr.2 < (getNums st.db tr.1).length
    · rw [if_pos h2]
      exact h
    · rw [if_neg h2]
      by_cases ht : t = tr.1
      · subst ht
        rw [getNums_setNums_self]
        exact List.mem_append_left _ h
      · rw [getNums_setNums_ne _ _ _ _ ht]
        exact h

theorem processType_toAdd_cases (st : LoopSt) (tr : String × Nat)
    (p : String × List Nat) (h : p ∈ (processType st tr).toAdd) :
    p ∈ st.toAdd ∨ (∀ n ∈ p.2, ∀ m ∈ getNums st.db p.1, m < n) := by
  simp only [processType] at h
  by_cases h1 : tr.2 = (getNums st.db tr.1).length
  · rw [if_pos h1] at h
    exact Or.inl h
  · rw [if_neg h1] at h
    by_cases h2 : tr.2 < (getNums st.db tr.1).length
    · rw [if_pos h2] at h
      exact Or.inl h
    · rw [if_neg h2] at h
      rcases List.mem_append.1 h with h3 | h3
      · exact Or.inl h3
      · right
        have hp : p = (tr.1,
            (List.range (tr.2 - (getNums st.db tr.1).length)).map
              (fun i => maxNum (getNums st.db tr.1) + 1 + i)) := by
          simpa using h3
        subst hp
        intro n hn m hm
        dsimp only at hn hm
        rcases List.mem_map.1 hn with ⟨i, _, rfl⟩
        have := le_maxNum _ m hm
        omega

theorem scaleLoop_toAdd_gt_aux (db0 : DB) (S : List (String × Nat)) :
    ∀ st : LoopSt,
      (∀ t m, m ∈ getNums db0 t → m ∈ getNums st.db t) →
      (∀ p ∈ st.toAdd, ∀ n ∈ p.2, ∀ m ∈ getNums db0 p.1, m < n) →
      ∀ p ∈ (S.foldl processType st).toAdd, ∀ n ∈ p.2, ∀ m ∈ getNums db0 p.1, m < n := by
  induction S with
  | nil => intro st _ hburst; exact hburst
  | cons tr S ih =>
    intro st hmono hburst
    refine ih (processType st tr) ?_ ?_
    · intro t m hm
      exact getNums_processType_mono st tr t m (hmono t m hm)
    · intro p hp n hn m hm
      rcases processType_toAdd_cases st tr p hp with hc | hc
      · exact hburst p hc n hn m hm
      · exact hc n hn m (hmono p.1 m hm)

/-- C1 (amended): every record created by a scale call gets an ordinal
strictly greater than every ordinal currently assigned for its (app, type)
pair, so ordinals strictly increase while any record of the pair survives;
but the counter restarts after the pair is scaled to zero, so ordinals are
not unique over the application's whole history. -/
theorem scale_ordinal_exceeds_current (db : DB) (S : List (String × Nat))
    (t : String) (fresh : List Nat)
    (h1 : (t, fresh) ∈ (scaleLoop db S).toAdd) (n : Nat) (h2 : n ∈ fresh)
    (m : Nat) (h3 : m ∈ getNums db t) : m < n :=
  scaleLoop_toAdd_gt_aux db S ⟨db, [], [], [], false⟩ (fun _ _ h => h)
    (by simp) (t, fresh) h1 n h2 m h3

/-- C1 witness: scaling "web" with an existing ordinal-5 record up to two
replicas creates ordinal 6, which exceeds the existing ordinal 5. -/
theorem scale_ordinal_exceeds_current_witness :
    (("web", [6]) ∈ (scaleLoop [("web", [5])] [("web", 2)]).toAdd) ∧ (5 : Nat) < 6 :=
  ⟨by decide,
    scale_ordinal_exceeds_current [("web", [5])] [("web", 2)] "web" [6]
      (by decide) 6 (by decide) 5 (by decide)⟩

/-! ### C8: list_pods projection -/

/-- C8: on every successful scheduler query, `list_pods` returns exactly the
processed projection, which contains no instance labeled with the reserved
"run" type, is a permutation of the `Pod` projections of the non-"run" raw
records (each projection filling a missing start time with the current
time), and is sorted descending by start time (latest first). -/
theorem list_pods_result_shape (rs : RawPod → String) (now : String)
    (raws : List RawPod) :
    (list_pods rs now (.ok raws)).2 = .ok (some (processPods rs now raws)) ∧
    (processPods rs now raws).all (fun p => !(p.type == "run")) = true ∧
    List.Sorted podLater (processPods rs now raws) ∧
    (processPods rs now raws).Perm
      ((raws.filter (fun p => !(p.labelType == "run"))).map (toPod rs now)) ∧
    (∀ p : RawPod, (toPod rs now p).started = p.startTime.getD now) := by
  refine ⟨rfl, ?_, ?_, ?_, fun p => rfl⟩
  · rw [List.all_eq_true]
    intro p hp
    have hp2 : p ∈ (raws.filter (fun q => !(q.labelType == "run"))).map (toPod rs now) :=
      (List.perm_insertionSort podLater _).subset hp
    rcases List.mem_map.1 hp2 with ⟨q, hq, rfl⟩
    have hq2 := List.of_mem_filter hq
    simpa [toPod] using hq2
  · exact List.sorted_insertionSort podLater _
  · exact List.perm_insertionSort podLater _

/-! ### C4: restart polling and timeout -/

theorem pollPods_never_up (desired : Nat) (observe : Nat → List Pod)
    (h : ∀ i, i < 60 → upCount (observe i) ≠ desired) :
    ∀ n k, k + n = 60 → pollPods desired observe (5 * k) k = .error () := by
  intro n
  induction n with
  | zero =>
    intro k hk
    have hk60 : k = 60 := by omega
    subst hk60
    rw [pollPods]
    rw [if_pos (by norm_num : (300 : Nat) ≤ 5 * 60)]
  | succ n ih =>
    intro k hk
    rw [pollPods]
    rw [if_neg (by omega : ¬ (300 : Nat) ≤ 5 * k)]
    rw [if_neg (h k (by omega))]
    have h5 : 5 * k + 5 = 5 * (k + 1) := by ring
    rw [h5]
    exact ih (k + 1) (by omega)

/-- C4: when the observed "up" count never reaches the desired count in any
of the 60 polls (one every 5 time units below the 300 ceiling), the timeout
is caught and logged as a warning rather than propagated — `restart` returns
normally — and the final observed matching list is still returned. -/
theorem restart_times_out_returns_list (desired : Nat) (observe : Nat → List Pod)
    (h : ∀ i, i < 60 → upCount (observe i) ≠ desired) :
    restart desired observe =
      ([Ev.log .warning "warning, some pods failed to start"], observe 60) := by
  have hp := pollPods_never_up desired observe h 60 0 (by omega)
  norm_num at hp
  rw [restart, hp]

/-- C4 witness: a pod list that is always empty never converges to one "up"
pod, so a concrete restart returns the warning and the final (empty) list. -/
theorem restart_times_out_returns_list_witness :
    (∀ i, i < 60 → upCount ((fun _ => ([] : List Pod)) i) ≠ 1) ∧
    restart 1 (fun _ => []) =
      ([Ev.log .warning "warning, some pods failed to start"], []) :=
  ⟨by decide, restart_times_out_returns_list 1 (fun _ => []) (by decide)⟩

/-! ### C2: idempotence of scale — loop characterization lemmas -/

theorem processType_eq_of_len (st : LoopSt) (tr : String × Nat)
    (h : tr.2 = (getNums st.db tr.1).length) : processType st tr = st := by
  simp only [processType]
  rw [if_pos h]

theorem processType_of_lt (st : LoopSt) (tr : String × Nat)
    (h : tr.2 < (getNums st.db tr.1).length) :
    processType st tr = { st with
      toRemove := st.toRemove ++ [(tr.1, (getNums st.db tr.1).drop tr.2)]
      scaleTypes := st.scaleTypes ++ [(tr.1, tr.2)]
      changed := true } := by
  simp only [processType]
  rw [if_neg (by omega), if_pos h]

theorem processType_of_gt (st : LoopSt) (tr : String × Nat)
    (h : (getNums st.db tr.1).length < tr.2) :
    processType st tr = { st with
      db := setNums st.db tr.1 (getNums st.db tr.1 ++
        (List.range (tr.2 - (getNums st.db tr.1).length)).map
          (fun i => maxNum (getNums st.db tr.1) + 1 + i))
      toAdd := st.toAdd ++ [(tr.1,
        (List.range (tr.2 - (getNums st.db tr.1).length)).map
          (fun i => maxNum (getNums st.db tr.1) + 1 + i))]
      scaleTypes := st.scaleTypes ++ [(tr.1, tr.2)]
      changed := true } := by
  simp only [processType]
  rw [if_neg (by omega), if_neg (by omega)]

theorem processType_getNums_ne (st : LoopSt) (tr : String × Nat) (t : String)
    (h : tr.1 ≠ t) : getNums (processType st tr).db t = getNums st.db t := by
  rcases lt_trichotomy tr.2 (getNums st.db tr.1).length with hlt | heq | hgt
  · rw [processType_of_lt st tr hlt]
  · rw [processType_eq_of_len st tr heq]
  · rw [processType_of_gt st tr hgt]
    exact getNums_setNums_ne _ _ _ _ (Ne.symm h)

theorem processType_toRemove_ne (st : LoopSt) (tr : String × Nat) (t : String)
    (h : tr.1 ≠ t) :
    (processType st tr).toRemove.filter (fun q => q.1 == t) =
      st.toRemove.filter (fun q => q.1 == t) := by
  rcases lt_trichotomy tr.2 (getNums st.db tr.1).length with hlt | heq | hgt
  · rw [processType_of_lt st tr hlt]
    simp [List.filter_append, h]
  · rw [processType_eq_of_len st tr heq]
  · rw [processType_of_gt st tr hgt]

theorem foldl_getNums_of_not_mem (t : String) :
    ∀ (S : List (String × Nat)) (st : LoopSt), t ∉ S.map Prod.fst →
      getNums (S.foldl processType st).db t = getNums st.db t := by
  intro S
  induction S with
  | nil => intro st _; rfl
  | cons tr S ih =>
    intro st h
    rw [List.map_cons, List.mem_cons] at h
    push_neg at h
    rw [List.foldl_cons, ih _ h.2]
    exact processType_getNums_ne st tr t (fun hc => h.1 hc.symm)

theorem foldl_toRemove_of_not_mem (t : String) :
    ∀ (S : List (String × Nat)) (st : LoopSt), t ∉ S.map Prod.fst →
      (S.foldl processType st).toRemove.filter (fun q => q.1 == t) =
        st.toRemove.filter (fun q => q.1 == t) := by
  intro S
  induction S with
  | nil => intro st _; rfl
  | cons tr S ih =>
    intro st h
    rw [List.map_cons, List.mem_cons] at h
    push_neg at h
    rw [List.foldl_cons, ih _ h.2]
    exact processType_toRemove_ne st tr t (fun hc => h.1 hc.symm)

theorem processType_changed_mono (st : LoopSt) (tr : String × Nat)
    (h : st.changed = true) : (processType st tr).changed = true := by
  rcases lt_trichotomy tr.2 (getNums st.db tr.1).length with hlt | heq | hgt
  · rw [processType_of_lt st tr hlt]
  · rw [processType_eq_of_len st tr heq]
    exact h
  · rw [processType_of_gt st tr hgt]

theorem foldl_changed_mono :
    ∀ (S : List (String × Nat)) (st : LoopSt), st.changed = true →
      (S.foldl processType st).changed = true := by
  intro S
  induction S with
  | nil => intro st h; exact h
  | cons tr S ih =>
    intro st h
    rw [List.foldl_cons]
    exact ih _ (processType_changed_mono st tr h)

theorem processType_changed_false (st : LoopSt) (tr : String × Nat)
    (h : (processType st tr).changed = false) :
    processType st tr = st ∧ tr.2 = (getNums st.db tr.1).length := by
  rcases lt_trichotomy tr.2 (getNums st.db tr.1).length with hlt | heq | hgt
  · rw [processType_of_lt st tr hlt] at h
    cases h
  · exact ⟨processType_eq_of_len st tr heq, heq⟩
  · rw [processType_of_gt st tr hgt] at h
    cases h

theorem foldl_changed_false :
    ∀ (S : List (String × Nat)) (st : LoopSt), (S.foldl processType st).changed = false →
      S.foldl processType st = st ∧ ∀ p ∈ S, p.2 = (getNums st.db p.1).length := by
  intro S
  induction S with
  | nil => intro st _; exact ⟨rfl, by simp⟩
  | cons tr S ih =>
    intro st h
    rw [List.foldl_cons] at h ⊢
    have h1 : (processType st tr).changed = false := by
      by_contra hc
      rw [Bool.not_eq_false] at hc
      rw [foldl_changed_mono S _ hc] at h
      cases h
    obtain ⟨heq, hlen⟩ := processType_changed_false st tr h1
    rw [heq] at h ⊢
    obtain ⟨hid, hall⟩ := ih st h
    refine ⟨hid, ?_⟩
    intro p hp
    rcases List.mem_cons.1 hp with rfl | hp2
    · exact hlen
    · exact hall p hp2

theorem foldl_diff0_id :
    ∀ (S : List (String × Nat)) (st : LoopSt),
      (∀ p ∈ S, p.2 = (getNums st.db p.1).length) →
      S.foldl processType st = st := by
  intro S
  induction S with
  | nil => intro st _; rfl
  | cons tr S ih =>
    intro st h
    rw [List.foldl_cons, processType_eq_of_len st tr (h tr (by simp))]
    exact ih st (fun p hp => h p (List.mem_cons_of_mem tr hp))

theorem removeNums_getNums_self (db : DB) (t : String) (rem : List Nat) :
    getNums (removeNums db t rem) t =
      (getNums db t).filter (fun n => !(rem.contains n)) :=
  getNums_setNums_self _ _ _

theorem removeNums_getNums_ne (db : DB) (t u : String) (rem : List Nat) (h : u ≠ t) :
    getNums (removeNums db t rem) u = getNums db u :=
  getNums_setNums_ne _ _ _ _ h

theorem applyRemovals_getNums_of_filter_nil (t : String) :
    ∀ (L : List (String × List Nat)) (db : DB),
      L.filter (fun q => q.1 == t) = [] →
      getNums (applyRemovals db L) t = getNums db t := by
  intro L
  induction L with
  | nil => intro db _; rfl
  | cons p L ih =>
    intro db h
    have hstep : applyRemovals db (p :: L) = applyRemovals (removeNums db p.1 p.2) L := by
      rw [applyRemovals, applyRemovals, List.foldl_cons]
    rcases hc : (p.1 == t) with _ | _
    · rw [List.filter_cons_of_neg (by simp [hc])] at h
      rw [hstep, ih _ h]
      exact removeNums_getNums_ne _ _ _ _ (by simpa using Ne.symm (by simpa using hc))
    · rw [List.filter_cons_of_pos (by simp [hc])] at h
      cases h

theorem applyRemovals_getNums_of_filter_single (t : String) (rem : List Nat) :
    ∀ (L : List (String × List Nat)) (db : DB),
      L.filter (fun q => q.1 == t) = [(t, rem)] →
      getNums (applyRemovals db L) t =
        (getNums db t).filter (fun n => !(rem.contains n)) := by
  intro L
  induction L with
  | nil => intro db h; cases h
  | cons p L ih =>
    intro db h
    have hstep : applyRemovals db (p :: L) = applyRemovals (removeNums db p.1 p.2) L := by
      rw [applyRemovals, applyRemovals, List.foldl_cons]
    rcases hc : (p.1 == t) with _ | _
    · rw [List.filter_cons_of_neg (by simp [hc])] at h
      rw [hstep, ih _ h]
      rw [removeNums_getNums_ne _ _ _ _ (by simpa using Ne.symm (by simpa using hc))]
    · rw [List.filter_cons_of_pos (by simp [hc])] at h
      have hp : p = (t, rem) := (List.cons_eq_cons.1 h).1
      have hL : L.filter (fun q => q.1 == t) = [] := (List.cons_eq_cons.1 h).2
      rw [hstep, applyRemovals_getNums_of_filter_nil t L _ hL, hp]
      exact removeNums_getNums_self _ _ _

theorem filter_not_contains_drop (l : List Nat) (hnd : l.Nodup) (r : Nat) :
    l.filter (fun n => !((l.drop r).contains n)) = l.take r := by
  have hsplit : l.filter (fun n => !((l.drop r).contains n)) =
      (l.take r).filter (fun n => !((l.drop r).contains n)) ++
        (l.drop r).filter (fun n => !((l.drop r).contains n)) := by
    rw [← List.filter_append, List.take_append_drop]
  rw [hsplit]
  have hnd2 : ((l.take r) ++ (l.drop r)).Nodup := by
    rw [List.take_append_drop]
    exact hnd
  have hdisj := (List.nodup_append.1 hnd2).2.2
  have h1 : (l.take r).filter (fun n => !((l.drop r).contains n)) = l.take r := by
    rw [List.filter_eq_self]
    intro a ha
    simp only [Bool.not_eq_true', ← Bool.not_eq_true]
    intro hc
    exact hdisj ha (by simpa using hc)
  have h2 : (l.drop r).filter (fun n => !((l.drop r).contains n)) = [] := by
    rw [List.filter_eq_nil_iff]
    intro a ha
    simp [ha]
  rw [h1, h2, List.append_nil]

theorem DBok_getNums_nodup (db : DB) (hdb : DBok db) (t : String) :
    (getNums db t).Nodup := by
  rcases hfind : db.find? (fun p => p.1 == t) with _ | p
  · rw [getNums, hfind]
    exact List.nodup_nil
  · rw [getNums, hfind]
    have hmem := List.mem_of_find?_eq_some hfind
    have hch := hdb p hmem
    have hpw := (List.chain'_iff_pairwise).1 hch
    exact hpw.imp (fun h => Nat.ne_of_lt h)

theorem scale_final_count (db : DB) (S : List (String × Nat))
    (hdb : DBok db) (hnd : (S.map Prod.fst).Nodup) :
    ∀ p ∈ S,
      (getNums (applyRemovals (scaleLoop db S).db (scaleLoop db S).toRemove) p.1).length
        = p.2 := by
  intro p hp
  obtain ⟨S1, S2, rfl⟩ := List.append_of_mem hp
  have hnd' : (S1.map Prod.fst ++ p.1 :: S2.map Prod.fst).Nodup := by
    simpa [List.map_append] using hnd
  obtain ⟨hndS1, hndcons, hdisj⟩ := List.nodup_append.1 hnd'
  have h2 : p.1 ∉ S2.map Prod.fst := (List.nodup_cons.1 hndcons).1
  have h1 : p.1 ∉ S1.map Prod.fst := fun hmem => hdisj hmem (List.mem_cons_self _ _)
  have hfold : scaleLoop db (S1 ++ p :: S2) =
      S2.foldl processType
        (processType (S1.foldl processType ⟨db, [], [], [], false⟩) p) := by
    rw [scaleLoop, List.foldl_append, List.foldl_cons]
  set st1 := S1.foldl processType (⟨db, [], [], [], false⟩ : LoopSt) with hst1def
  have hdb1 : getNums st1.db p.1 = getNums db p.1 :=
    foldl_getNums_of_not_mem p.1 S1 _ h1
  have hrem1 : st1.toRemove.filter (fun q => q.1 == p.1) = [] := by
    have := foldl_toRemove_of_not_mem p.1 S1 (⟨db, [], [], [], false⟩ : LoopSt) h1
    simpa using this
  rcases lt_trichotomy p.2 (getNums db p.1).length with hlt | heq | hgt
  · have hplt : p.2 < (getNums st1.db p.1).length := by
      rw [hdb1]
      exact hlt
    have hpt := processType_of_lt st1 p hplt
    have hdb2 : getNums (scaleLoop db (S1 ++ p :: S2)).db p.1 = getNums db p.1 := by
      rw [hfold, foldl_getNums_of_not_mem p.1 S2 _ h2, hpt]
      exact hdb1
    have hrem2 : (scaleLoop db (S1 ++ p :: S2)).toRemove.filter (fun q => q.1 == p.1) =
        [(p.1, (getNums db p.1).drop p.2)] := by
      rw [hfold, foldl_toRemove_of_not_mem p.1 S2 _ h2, hpt]
      show (st1.toRemove ++ [(p.1, (getNums st1.db p.1).drop p.2)]).filter
          (fun q => q.1 == p.1) = _
      rw [List.filter_append, hrem1, hdb1]
      simp
    rw [applyRemovals_getNums_of_filter_single p.1 ((getNums db p.1).drop p.2) _ _ hrem2]
    rw [hdb2]
    rw [filter_not_contains_drop (getNums db p.1) (DBok_getNums_nodup db hdb p.1) p.2]
    rw [List.length_take]
    omega
  · have hpt := processType_eq_of_len st1 p (by rw [hdb1]; exact heq)
    have hdb2 : getNums (scaleLoop db (S1 ++ p :: S2)).db p.1 = getNums db p.1 := by
      rw [hfold, hpt, foldl_getNums_of_not_mem p.1 S2 _ h2]
      exact hdb1
    have hrem2 :
        (scaleLoop db (S1 ++ p :: S2)).toRemove.filter (fun q => q.1 == p.1) = [] := by
      rw [hfold, hpt, foldl_toRemove_of_not_mem p.1 S2 _ h2]
      exact hrem1
    rw [applyRemovals_getNums_of_filter_nil p.1 _ _ hrem2, hdb2]
    omega
  · have hpgt : (getNums st1.db p.1).length < p.2 := by
      rw [hdb1]
      exact hgt
    have hpt := processType_of_gt st1 p hpgt
    have hdb2 : getNums (scaleLoop db (S1 ++ p :: S2)).db p.1 =
        getNums st1.db p.1 ++
          (List.range (p.2 - (getNums st1.db p.1).length)).map
            (fun i => maxNum (getNums st1.db p.1) + 1 + i) := by
      rw [hfold, foldl_getNums_of_not_mem p.1 S2 _ h2, hpt]
      exact getNums_setNums_self _ _ _
    have hrem2 :
        (scaleLoop db (S1 ++ p :: S2)).toRemove.filter (fun q => q.1 == p.1) = [] := by
      rw [hfold, foldl_toRemove_of_not_mem p.1 S2 _ h2, hpt]
      exact hrem1
    rw [applyRemovals_getNums_of_filter_nil p.1 _ _ hrem2, hdb2]
    rw [List.length_append, List.length_map, List.length_range, hdb1]
    omega

/-- C2: for every validated structure `S` (a dict: its keys are distinct;
its counts are naturals) and well-formed state, if a `scale` call returns
(rather than raising), then an immediately repeated `scale` with the same
`S` is a no-op: it returns `False` ("unchanged"), performs no workload
scheduler call, creates no records and removes none — the resulting state is
exactly the state after the first call. -/
theorem scale_idempotent (b : Build) (so so' : Bool) (st : AppSt)
    (S : List (String × Nat)) (c : Bool)
    (hdb : DBok st.db) (hnd : (S.map Prod.fst).Nodup)
    (hok : (scale (some b) so st S).2.2 = .ok c) :
    scale (some b) so' (scale (some b) so st S).2.1 S =
      ([SchedCall.createNs], (scale (some b) so st S).2.1, .ok false) := by
  have hfnone : S.find? (fun p => !(p.1 == "cmd") && !(b.procfile.contains p.1)) = none := by
    rcases hf : S.find? (fun p => !(p.1 == "cmd") && !(b.procfile.contains p.1)) with _ | q
    · exact hf
    · exfalso
      simp only [scale, hf] at hok
      exact Except.noConfusion hok
  have hc2 : ∀ p ∈ S, (getNums (scale (some b) so st S).2.1.db p.1).length = p.2 := by
    by_cases hch : (scaleLoop st.db S).changed = true
    · cases so
      · exfalso
        simp only [scale, hfnone] at hok
        rw [if_pos hch] at hok
        simp at hok
      · intro p hp
        simp only [scale, hfnone]
        rw [if_pos hch, if_pos trivial]
        exact scale_final_count st.db S hdb hnd p hp
    · have hch' : (S.foldl processType (⟨st.db, [], [], [], false⟩ : LoopSt)).changed
          = false := by
        rw [← Bool.not_eq_true]
        exact hch
      obtain ⟨hid, hall⟩ := foldl_changed_false S _ hch'
      intro p hp
      simp only [scale, hfnone]
      rw [if_neg hch]
      show (getNums (scaleLoop st.db S).db p.1).length = p.2
      rw [scaleLoop, hid]
      exact (hall p hp).symm
  have hstruct : (scale (some b) so st S).2.1.struct =
      newStructure S (scale (some b) so st S).2.1.db := by
    by_cases hch : (scaleLoop st.db S).changed = true
    · cases so
      · exfalso
        simp only [scale, hfnone] at hok
        rw [if_pos hch] at hok
        simp at hok
      · simp only [scale, hfnone]
        rw [if_pos hch, if_pos trivial]
    · simp only [scale, hfnone]
      rw [if_neg hch]
  set st' := (scale (some b) so st S).2.1 with hst'
  have hloop2 : S.foldl processType (⟨st'.db, [], [], [], false⟩ : LoopSt) =
      ⟨st'.db, [], [], [], false⟩ :=
    foldl_diff0_id S _ (fun p hp => (hc2 p hp).symm)
  simp only [scale, hfnone]
  rw [scaleLoop, hloop2]
  rw [if_neg (by simp)]
  rw [← hstruct]

/-- C2 witness: a concrete first scale (two "web" replicas from an empty
state) succeeds, and the repeated call is the identity returning `False`
with no workload call. -/
theorem scale_idempotent_witness :
    DBok ((⟨[], []⟩ : AppSt).db) ∧
    (([("web", 2)] : List (String × Nat)).map Prod.fst).Nodup ∧
    (scale (some ⟨some "abc", false, ["web"]⟩) true ⟨[], []⟩ [("web", 2)]).2.2
      = .ok true ∧
    scale (some ⟨some "abc", false, ["web"]⟩) true
        (scale (some ⟨some "abc", false, ["web"]⟩) true ⟨[], []⟩ [("web", 2)]).2.1
        [("web", 2)] =
      ([SchedCall.createNs],
        (scale (some ⟨some "abc", false, ["web"]⟩) true ⟨[], []⟩ [("web", 2)]).2.1,
        .ok false) :=
  ⟨by decide, by decide, by decide,
    scale_idempotent ⟨some "abc", false, ["web"]⟩ true true ⟨[], []⟩
      [("web", 2)] true (by decide) (by decide) (by decide)⟩

end Workflow
